import Mathlib

/-!
# Merton-KMV grid search (`EC7103Coursework2_239012937.cpp`)

Shallow embedding of the two functions of the program, `N` and
`newton_raphson_algorithm`.

Modelling conventions.

* A C++ `double` is modelled by a real number and the arithmetic of `<cmath>`
  (`sqrt`, `log`, `exp`, `erf`, `abs`) by the exact real functions, so rounding,
  infinities and NaN are idealised away.  Every statement about the control flow
  of the search below is proved without looking inside the evaluated residuals,
  so it holds for whatever values the evaluation yields.
* A C++ `int` is modelled by a natural number: the loop counters start at `1`,
  only grow, and the largest integer the program forms is
  `10000 * 1000 + 1000 = 10001000 < 2 ^ 31`.  `i / n` is truncating division.
* `cout` is modelled by the list of records printed so far (oldest first).
* The flag `found_better_solution` is written but never read by the program and
  is left out of the state.
-/

set_option autoImplicit false

open Real

namespace MertonKMV

/-! ## The cumulative normal function -/

/-- The error function of `<cmath>`: `erf x = 2/√π · ∫₀ˣ exp (-t²) dt`. -/
noncomputable def erf (x : ℝ) : ℝ :=
  2 / Real.sqrt Real.pi * ∫ t in (0 : ℝ)..x, Real.exp (-t ^ 2)

/-- Source lines 74-76: `return 0.5 * (1 + erf(x / sqrt(2)));`. -/
noncomputable def N (x : ℝ) : ℝ :=
  0.5 * (1 + erf (x / Real.sqrt 2))

/-! ## Constants of `newton_raphson_algorithm` (source lines 80-88) -/

/-- Local constant `int n = 10000`. -/
def n : ℕ := 10000

/-- Local constant `int inner_iter = 1000`. -/
def inner_iter : ℕ := 1000

/-- Local constant `int outer_iter = 10000`. -/
def outer_iter : ℕ := 10000

/-- Initial value of `old_tol`, the literal `1e1`. -/
noncomputable def initial_tol : ℝ := 10

/-- Local constant `double epsilon = 0.00001`. -/
noncomputable def epsilon : ℝ := 0.00001

/-! ## Evaluation of one grid point (source lines 103-124) -/

/-- The five arguments of `newton_raphson_algorithm`. -/
structure Inputs where
  E : ℝ
  D : ℝ
  T : ℝ
  r : ℝ
  sigma_E : ℝ

/-- Line 103: `A = E + D/2 + (i/n)*D;` with `i / n` an `int` division. -/
noncomputable def A (inp : Inputs) (i : ℕ) : ℝ :=
  inp.E + inp.D / 2 + ((i / n : ℕ) : ℝ) * inp.D

/-- Line 104: `sigma_A = 0.05 + (j/inner_iter)*(1.0 - epsilon);` with `j / inner_iter`
an `int` division. -/
noncomputable def sigma_A (j : ℕ) : ℝ :=
  0.05 + ((j / inner_iter : ℕ) : ℝ) * (1.0 - epsilon)

/-- Line 105: `d1 = (log(A/D) + (r+sigma_A*sigma_A/2.)*T)/(sigma_A*sqrt(T));`. -/
noncomputable def d1 (inp : Inputs) (i j : ℕ) : ℝ :=
  (Real.log (A inp i / inp.D) + (inp.r + sigma_A j * sigma_A j / 2) * inp.T)
    / (sigma_A j * Real.sqrt inp.T)

/-- Line 106: `d2 = d1 - sigma_A*sqrt(T);`. -/
noncomputable def d2 (inp : Inputs) (i j : ℕ) : ℝ :=
  d1 inp i j - sigma_A j * Real.sqrt inp.T

/-- Line 107: `kmv_dtd = (A-D) / sigma_A;`. -/
noncomputable def kmv_dtd (inp : Inputs) (i j : ℕ) : ℝ :=
  (A inp i - inp.D) / sigma_A j

/-- Line 115: `A_diff = (A*N(d1) - D*exp(-r*T)*N(d2) - E)/A;`. -/
noncomputable def A_diff (inp : Inputs) (i j : ℕ) : ℝ :=
  (A inp i * N (d1 inp i j) - inp.D * Real.exp (-inp.r * inp.T) * N (d2 inp i j) - inp.E)
    / A inp i

/-- Line 122: `sigma_E_diff = A/E * N(d1) * sigma_A - sigma_E;`. -/
noncomputable def sigma_E_diff (inp : Inputs) (i j : ℕ) : ℝ :=
  A inp i / inp.E * N (d1 inp i j) * sigma_A j - inp.sigma_E

/-- Line 124: `new_tol = abs(A_diff) + abs(sigma_E_diff);`. -/
noncomputable def new_tol (inp : Inputs) (i j : ℕ) : ℝ :=
  |A_diff inp i j| + |sigma_E_diff inp i j|

/-! ## The search state and the loops (source lines 83-150) -/

/-- One block printed by lines 135-140, in the order of the six `cout` lines. -/
structure Event where
  firm_value : ℝ
  volatility : ℝ
  distance_to_default : ℝ
  kmv_distance_to_default : ℝ
  iterations : ℕ
  tolerance : ℝ

/-- The locals that survive an iteration, the console output, and the list of
grid points whose residuals have been evaluated so far (a ghost field the
program does not have, used to count evaluations). -/
structure State where
  old_tol : ℝ
  iterations_to_convergence : ℕ
  converged : Bool
  out : List Event
  evaluated : List (ℕ × ℕ)

/-- Lines 83-95: the state before the outer loop is entered. -/
noncomputable def init : State :=
  { old_tol := initial_tol, iterations_to_convergence := 0, converged := false,
    out := [], evaluated := [] }

/-- The record printed at grid point `(i, j)` (lines 135-140). -/
noncomputable def report (inp : Inputs) (i j : ℕ) : Event :=
  { firm_value := A inp i, volatility := sigma_A j, distance_to_default := d1 inp i j,
    kmv_distance_to_default := kmv_dtd inp i j, iterations := i * inner_iter + j,
    tolerance := new_tol inp i j }

/-- Lines 103-142: the body of the inner loop at grid point `(i, j)`. -/
noncomputable def body (inp : Inputs) (i j : ℕ) (s : State) : State :=
  if new_tol inp i j < s.old_tol then
    { old_tol := new_tol inp i j,
      iterations_to_convergence := i * inner_iter + j,
      converged := true,
      out := s.out ++ [report inp i j],
      evaluated := s.evaluated ++ [(i, j)] }
  else
    { s with evaluated := s.evaluated ++ [(i, j)] }

/-- Line 102: `for (int j = ...; j <= inner_iter; j++)`, entered with the current `j`. -/
noncomputable def inner_loop (inp : Inputs) (i j : ℕ) (s : State) : State :=
  if j ≤ inner_iter then inner_loop inp i (j + 1) (body inp i j s) else s
termination_by inner_iter + 1 - j
decreasing_by omega

/-- Line 98: `for (int i = ...; i <= outer_iter; i++)`, entered with the current `i`;
each round runs the inner loop from `j = 1`. -/
noncomputable def outer_loop (inp : Inputs) (i : ℕ) (s : State) : State :=
  if i ≤ outer_iter then outer_loop inp (i + 1) (inner_loop inp i 1 s) else s
termination_by outer_iter + 1 - i
decreasing_by omega

/-- Lines 98-150: the state when both loops have finished. -/
noncomputable def search (inp : Inputs) : State :=
  outer_loop inp 1 init

/-- Lines 152-158: the status code computed from the final state. -/
def classify (s : State) : ℕ :=
  if s.converged then 0
  else if 1000 * inner_iter ≤ s.iterations_to_convergence then 1
  else 2

/-- Lines 79-159: the value returned by `newton_raphson_algorithm(E, D, T, r, sigma_E)`. -/
noncomputable def newton_raphson_algorithm (E D T r sigma_E : ℝ) : ℕ :=
  classify (search ⟨E, D, T, r, sigma_E⟩)

/-! ## Processing order -/

/-- The grid points in the order the loops visit them: `i` ascending from `i0` for
`k` rounds, and inside each round `j = 1, ..., inner_iter`. -/
def grid_from (i0 k : ℕ) : List (ℕ × ℕ) :=
  (List.range' i0 k).flatMap fun i => (List.range' 1 inner_iter).map fun j => (i, j)

/-- The whole grid `i = 1..outer_iter`, `j = 1..inner_iter` in processing order. -/
def grid : List (ℕ × ℕ) := grid_from 1 outer_iter

/-- The state after the grid points of `l` have been processed in order, starting from `s`. -/
noncomputable def run (inp : Inputs) (l : List (ℕ × ℕ)) (s : State) : State :=
  l.foldl (fun s p => body inp p.1 p.2 s) s

/-- The state of the search after the first `k` grid points have been processed. -/
noncomputable def state_after (inp : Inputs) (k : ℕ) : State :=
  run inp (grid.take k) init

/-- The combined tolerance at a grid point given as a pair. -/
noncomputable def tol_at (inp : Inputs) (p : ℕ × ℕ) : ℝ :=
  new_tol inp p.1 p.2

/-- Processing order on grid points: `i` outer, `j` inner. -/
def before (p q : ℕ × ℕ) : Prop :=
  p.1 < q.1 ∨ (p.1 = q.1 ∧ p.2 < q.2)

/-- The first grid point, in processing order, of each of the four classes of grid points
with equal truncated quotients `i / n` and `j / inner_iter`. -/
def corners : List (ℕ × ℕ) :=
  [(1, 1), (1, inner_iter), (outer_iter, 1), (outer_iter, inner_iter)]

/-- The corner whose truncated quotients `i / n` and `j / inner_iter` are those of `p`. -/
def corner_of (p : ℕ × ℕ) : ℕ × ℕ :=
  (if p.1 < n then 1 else outer_iter, if p.2 < inner_iter then 1 else inner_iter)

/-! ## The error function and `N` -/

theorem gauss_intervalIntegrable (a b : ℝ) :
    IntervalIntegrable (fun t : ℝ => Real.exp (-t ^ 2)) MeasureTheory.volume a b :=
  (by fun_prop : Continuous fun t : ℝ => Real.exp (-t ^ 2)).intervalIntegrable a b

theorem erf_zero : erf 0 = 0 := by
  simp [erf]

theorem erf_neg (x : ℝ) : erf (-x) = -erf x := by
  unfold erf
  have h := intervalIntegral.integral_comp_neg (a := 0) (b := x) (fun t : ℝ => Real.exp (-t ^ 2))
  simp only [neg_sq, neg_zero] at h
  rw [intervalIntegral.integral_symm, ← h]
  ring

theorem erf_mono {x y : ℝ} (h : x ≤ y) : erf x ≤ erf y := by
  unfold erf
  have hc : 0 ≤ 2 / Real.sqrt Real.pi := by positivity
  refine mul_le_mul_of_nonneg_left ?_ hc
  have h1 := intervalIntegral.integral_interval_sub_left
    (gauss_intervalIntegrable 0 y) (gauss_intervalIntegrable 0 x)
  have h2 : 0 ≤ ∫ t in x..y, Real.exp (-t ^ 2) :=
    intervalIntegral.integral_nonneg h (fun t _ => (Real.exp_pos _).le)
  linarith

theorem gauss_integral_le (x : ℝ) (hx : 0 ≤ x) :
    ∫ t in (0 : ℝ)..x, Real.exp (-t ^ 2) ≤ Real.sqrt Real.pi / 2 := by
  have hI : MeasureTheory.IntegrableOn (fun t : ℝ => Real.exp (-t ^ 2)) (Set.Ioi 0) := by
    have := (integrable_exp_neg_mul_sq (b := 1) one_pos).integrableOn (s := Set.Ioi (0 : ℝ))
    simpa using this
  have hG : ∫ t in Set.Ioi (0 : ℝ), Real.exp (-t ^ 2) = Real.sqrt Real.pi / 2 := by
    have := integral_gaussian_Ioi 1
    simpa using this
  rw [intervalIntegral.integral_of_le hx, ← hG]
  refine MeasureTheory.setIntegral_mono_set hI ?_ ?_
  · exact Filter.Eventually.of_forall (fun t => (Real.exp_pos _).le)
  · exact Filter.Eventually.of_forall (fun t ht => ht.1)

theorem erf_le_one (x : ℝ) : erf x ≤ 1 := by
  have hpi : 0 < Real.sqrt Real.pi := Real.sqrt_pos.mpr Real.pi_pos
  rcases le_total 0 x with hx | hx
  · unfold erf
    have h := gauss_integral_le x hx
    calc 2 / Real.sqrt Real.pi * ∫ t in (0 : ℝ)..x, Real.exp (-t ^ 2)
        ≤ 2 / Real.sqrt Real.pi * (Real.sqrt Real.pi / 2) :=
          mul_le_mul_of_nonneg_left h (by positivity)
      _ = 1 := by field_simp
  · have := erf_mono hx
    rw [erf_zero] at this
    linarith

theorem neg_one_le_erf (x : ℝ) : -1 ≤ erf x := by
  have := erf_le_one (-x)
  rw [erf_neg] at this
  linarith

theorem N_nonneg (x : ℝ) : 0 ≤ N x := by
  unfold N
  have := neg_one_le_erf (x / Real.sqrt 2)
  norm_num
  linarith

theorem N_le_one (x : ℝ) : N x ≤ 1 := by
  unfold N
  have := erf_le_one (x / Real.sqrt 2)
  norm_num
  linarith

theorem run_nil (inp : Inputs) (s : State) : run inp [] s = s := rfl

theorem run_cons (inp : Inputs) (p : ℕ × ℕ) (l : List (ℕ × ℕ)) (s : State) :
    run inp (p :: l) s = run inp l (body inp p.1 p.2 s) := rfl

theorem run_append (inp : Inputs) (l₁ l₂ : List (ℕ × ℕ)) (s : State) :
    run inp (l₁ ++ l₂) s = run inp l₂ (run inp l₁ s) := by
  simp [run, List.foldl_append]

theorem inner_loop_eq_run (inp : Inputs) (i : ℕ) :
    ∀ (k j : ℕ) (s : State), j + k = inner_iter + 1 →
      inner_loop inp i j s = run inp ((List.range' j k).map fun j => (i, j)) s := by
  intro k
  induction k with
  | zero =>
    intro j s h
    rw [inner_loop, if_neg (by omega)]
    rfl
  | succ k ih =>
    intro j s h
    rw [inner_loop, if_pos (by omega), ih (j + 1) _ (by omega)]
    rfl

theorem grid_from_succ (i k : ℕ) :
    grid_from i (k + 1) = ((List.range' 1 inner_iter).map fun j => (i, j)) ++ grid_from (i + 1) k := by
  simp [grid_from, List.range'_succ]

theorem outer_loop_eq_run (inp : Inputs) :
    ∀ (k i : ℕ) (s : State), i + k = outer_iter + 1 →
      outer_loop inp i s = run inp (grid_from i k) s := by
  intro k
  induction k with
  | zero =>
    intro i s h
    rw [outer_loop, if_neg (by omega)]
    rfl
  | succ k ih =>
    intro i s h
    rw [outer_loop, if_pos (by omega), ih (i + 1) _ (by omega), grid_from_succ, run_append,
      inner_loop_eq_run inp i inner_iter 1 s (by omega)]

theorem search_eq_run (inp : Inputs) : search inp = run inp grid init :=
  outer_loop_eq_run inp outer_iter 1 init (by omega)

/-! ## The grid -/

theorem mem_grid_from (i0 k : ℕ) (p : ℕ × ℕ) :
    p ∈ grid_from i0 k ↔ (i0 ≤ p.1 ∧ p.1 < i0 + k) ∧ (1 ≤ p.2 ∧ p.2 ≤ inner_iter) := by
  obtain ⟨i, j⟩ := p
  simp only [grid_from, List.mem_flatMap, List.mem_map, List.mem_range', Prod.mk.injEq]
  constructor
  · rintro ⟨a, ⟨u, hu, rfl⟩, b, ⟨v, hv, rfl⟩, rfl, rfl⟩
    refine ⟨⟨?_, ?_⟩, ?_, ?_⟩ <;> omega
  · rintro ⟨⟨h1, h2⟩, h3, h4⟩
    exact ⟨i, ⟨i - i0, by omega, by omega⟩, j, ⟨j - 1, by omega, by omega⟩, rfl, rfl⟩

theorem mem_grid (p : ℕ × ℕ) :
    p ∈ grid ↔ (1 ≤ p.1 ∧ p.1 ≤ outer_iter) ∧ (1 ≤ p.2 ∧ p.2 ≤ inner_iter) := by
  rw [grid, mem_grid_from]
  constructor
  · rintro ⟨⟨h1, h2⟩, h3⟩
    exact ⟨⟨h1, by omega⟩, h3⟩
  · rintro ⟨⟨h1, h2⟩, h3⟩
    exact ⟨⟨h1, by omega⟩, h3⟩

theorem length_grid_from (i0 k : ℕ) : (grid_from i0 k).length = k * inner_iter := by
  induction k generalizing i0 with
  | zero => simp [grid_from]
  | succ k ih =>
    rw [grid_from_succ, List.length_append, ih, List.length_map, List.length_range']
    ring

theorem length_grid : grid.length = 10000000 := by
  rw [grid, length_grid_from]
  rfl

theorem pairwise_grid_from (i0 k : ℕ) : (grid_from i0 k).Pairwise before := by
  induction k generalizing i0 with
  | zero => simp [grid_from]
  | succ k ih =>
    rw [grid_from_succ, List.pairwise_append]
    refine ⟨?_, ih _, ?_⟩
    · rw [List.pairwise_map]
      refine (List.pairwise_lt_range' 1 inner_iter).imp ?_
      intro a b hab
      exact Or.inr ⟨rfl, hab⟩
    · intro p hp q hq
      rw [mem_grid_from] at hq
      simp only [List.mem_map, List.mem_range'] at hp
      obtain ⟨a, _, rfl⟩ := hp
      exact Or.inl (by omega)

theorem pairwise_grid : grid.Pairwise before := pairwise_grid_from 1 outer_iter

theorem before_irrefl (p : ℕ × ℕ) : ¬ before p p := by
  unfold before
  omega

theorem before_asymm (p q : ℕ × ℕ) (h : before p q) : ¬ before q p := by
  unfold before at *
  omega

theorem nodup_grid : grid.Nodup := by
  refine pairwise_grid.imp ?_
  intro p q h e
  subst e
  exact before_irrefl p h

/-! ## One step of the search -/

theorem body_old_tol (inp : Inputs) (i j : ℕ) (s : State) :
    (body inp i j s).old_tol = min (new_tol inp i j) s.old_tol := by
  unfold body
  split_ifs with h
  · exact (min_eq_left h.le).symm
  · exact (min_eq_right (not_lt.mp h)).symm

theorem body_evaluated (inp : Inputs) (i j : ℕ) (s : State) :
    (body inp i j s).evaluated = s.evaluated ++ [(i, j)] := by
  unfold body
  split_ifs <;> rfl

theorem body_of_lt (inp : Inputs) (i j : ℕ) (s : State) (h : new_tol inp i j < s.old_tol) :
    body inp i j s =
      { old_tol := new_tol inp i j, iterations_to_convergence := i * inner_iter + j,
        converged := true, out := s.out ++ [report inp i j],
        evaluated := s.evaluated ++ [(i, j)] } := by
  unfold body
  rw [if_pos h]

theorem body_of_not_lt (inp : Inputs) (i j : ℕ) (s : State) (h : ¬ new_tol inp i j < s.old_tol) :
    body inp i j s = { s with evaluated := s.evaluated ++ [(i, j)] } := by
  unfold body
  rw [if_neg h]

/-! ## Invariants of a run over any list of grid points -/

theorem run_evaluated (inp : Inputs) (l : List (ℕ × ℕ)) (s : State) :
    (run inp l s).evaluated = s.evaluated ++ l := by
  induction l generalizing s with
  | nil => simp [run_nil]
  | cons p l ih => rw [run_cons, ih, body_evaluated]; simp

theorem run_old_tol (inp : Inputs) (l : List (ℕ × ℕ)) (s : State) :
    (run inp l s).old_tol = (l.map (tol_at inp)).foldl min s.old_tol := by
  induction l generalizing s with
  | nil => rfl
  | cons p l ih =>
    rw [run_cons, ih, body_old_tol, List.map_cons, List.foldl_cons, min_comm]
    rfl

theorem run_old_tol_le (inp : Inputs) (l : List (ℕ × ℕ)) (s : State) :
    (run inp l s).old_tol ≤ s.old_tol := by
  induction l generalizing s with
  | nil => exact le_refl _
  | cons p l ih =>
    rw [run_cons]
    refine (ih _).trans ?_
    rw [body_old_tol]
    exact min_le_right _ _

theorem run_old_tol_le_tol (inp : Inputs) (l : List (ℕ × ℕ)) (s : State) (p : ℕ × ℕ)
    (hp : p ∈ l) : (run inp l s).old_tol ≤ tol_at inp p := by
  induction l generalizing s with
  | nil => simp at hp
  | cons q l ih =>
    rw [run_cons]
    rcases List.mem_cons.mp hp with rfl | h
    · refine (run_old_tol_le inp l _).trans ?_
      rw [body_old_tol]
      exact min_le_left _ _
    · exact ih _ h

theorem run_old_tol_attained (inp : Inputs) (l : List (ℕ × ℕ)) (s : State) :
    (run inp l s).old_tol = s.old_tol ∨ ∃ p ∈ l, (run inp l s).old_tol = tol_at inp p := by
  induction l generalizing s with
  | nil => exact Or.inl rfl
  | cons q l ih =>
    rw [run_cons]
    rcases ih (body inp q.1 q.2 s) with h | ⟨p, hp, h⟩
    · rw [h, body_old_tol]
      rcases min_choice (new_tol inp q.1 q.2) s.old_tol with h2 | h2
      · exact Or.inr ⟨q, List.mem_cons_self _ _, h2⟩
      · exact Or.inl h2
    · exact Or.inr ⟨p, List.mem_cons_of_mem _ hp, h⟩

theorem run_of_old_tol_eq (inp : Inputs) (l : List (ℕ × ℕ)) (s : State)
    (h : (run inp l s).old_tol = s.old_tol) :
    (run inp l s).out = s.out ∧
      (run inp l s).iterations_to_convergence = s.iterations_to_convergence ∧
      (run inp l s).converged = s.converged := by
  induction l generalizing s with
  | nil => exact ⟨rfl, rfl, rfl⟩
  | cons p l ih =>
    rw [run_cons] at h ⊢
    have h1 : ¬ new_tol inp p.1 p.2 < s.old_tol := by
      intro hlt
      have h2 := run_old_tol_le inp l (body inp p.1 p.2 s)
      rw [h, body_old_tol] at h2
      exact absurd (h2.trans (min_le_left _ _)) (not_le.mpr hlt)
    rw [body_of_not_lt inp p.1 p.2 s h1] at h ⊢
    exact ih _ h

theorem run_converged_iff (inp : Inputs) (l : List (ℕ × ℕ)) (s : State) :
    (run inp l s).converged = true ↔
      s.converged = true ∨ ∃ p ∈ l, tol_at inp p < s.old_tol := by
  induction l generalizing s with
  | nil => simp [run_nil]
  | cons p l ih =>
    rw [run_cons, ih]
    by_cases hlt : new_tol inp p.1 p.2 < s.old_tol
    · rw [body_of_lt inp p.1 p.2 s hlt]
      simp only [true_or, true_iff]
      exact Or.inr ⟨p, List.mem_cons_self _ _, hlt⟩
    · rw [body_of_not_lt inp p.1 p.2 s hlt]
      simp only [List.mem_cons, exists_eq_or_imp]
      constructor
      · rintro (h | h)
        · exact Or.inl h
        · exact Or.inr (Or.inr h)
      · rintro (h | h | h)
        · exact Or.inl h
        · exact absurd h hlt
        · exact Or.inr h

theorem run_flag_iff (inp : Inputs) (l : List (ℕ × ℕ)) (s : State)
    (hl : ∀ p ∈ l, 1 ≤ p.2)
    (hs : s.converged = false ↔ s.iterations_to_convergence = 0) :
    (run inp l s).converged = false ↔ (run inp l s).iterations_to_convergence = 0 := by
  induction l generalizing s with
  | nil => exact hs
  | cons p l ih =>
    rw [run_cons]
    refine ih _ (fun q hq => hl q (List.mem_cons_of_mem _ hq)) ?_
    by_cases hlt : new_tol inp p.1 p.2 < s.old_tol
    · rw [body_of_lt inp p.1 p.2 s hlt]
      have := hl p (List.mem_cons_self _ _)
      simp only [Bool.true_eq_false, false_iff]
      omega
    · rw [body_of_not_lt inp p.1 p.2 s hlt]
      exact hs

theorem run_out (inp : Inputs) (l : List (ℕ × ℕ)) (s : State) :
    ∃ es : List Event, (run inp l s).out = s.out ++ es ∧
      es.Pairwise (fun a b => b.tolerance < a.tolerance) ∧
      ∀ e ∈ es, e.tolerance < s.old_tol ∧ (run inp l s).old_tol ≤ e.tolerance ∧
        ∃ p ∈ l, e = report inp p.1 p.2 := by
  induction l generalizing s with
  | nil => exact ⟨[], by simp [run_nil], List.Pairwise.nil, by simp⟩
  | cons p l ih =>
    rw [run_cons]
    by_cases hlt : new_tol inp p.1 p.2 < s.old_tol
    · obtain ⟨es, h1, h2, h3⟩ := ih (body inp p.1 p.2 s)
      have hfin := run_old_tol_le inp l (body inp p.1 p.2 s)
      rw [body_of_lt inp p.1 p.2 s hlt] at h1 h3 hfin
      rw [body_of_lt inp p.1 p.2 s hlt]
      refine ⟨report inp p.1 p.2 :: es, ?_, ?_, ?_⟩
      · rw [h1]; simp
      · refine List.pairwise_cons.mpr ⟨?_, h2⟩
        intro e he
        exact (h3 e he).1
      · intro e he
        rcases List.mem_cons.mp he with rfl | he
        · exact ⟨hlt, hfin, p, List.mem_cons_self _ _, rfl⟩
        · obtain ⟨a, b, q, hq, c⟩ := h3 e he
          exact ⟨lt_trans a hlt, b, q, List.mem_cons_of_mem _ hq, c⟩
    · obtain ⟨es, h1, h2, h3⟩ := ih (body inp p.1 p.2 s)
      rw [body_of_not_lt inp p.1 p.2 s hlt] at h1 h3
      rw [body_of_not_lt inp p.1 p.2 s hlt]
      refine ⟨es, h1, h2, ?_⟩
      intro e he
      obtain ⟨a, b, q, hq, c⟩ := h3 e he
      exact ⟨a, b, q, List.mem_cons_of_mem _ hq, c⟩

theorem run_first_attaining (inp : Inputs) (l : List (ℕ × ℕ)) (s : State)
    (h : (run inp l s).old_tol < s.old_tol) :
    ∃ (l₁ : List (ℕ × ℕ)) (p : ℕ × ℕ) (l₂ : List (ℕ × ℕ)), l = l₁ ++ p :: l₂ ∧
      tol_at inp p = (run inp l s).old_tol ∧
      (∀ q ∈ l₁, (run inp l s).old_tol < tol_at inp q) ∧
      (run inp l s).out.getLast? = some (report inp p.1 p.2) ∧
      (run inp l s).iterations_to_convergence = p.1 * inner_iter + p.2 := by
  induction l generalizing s with
  | nil => exact absurd h (lt_irrefl _)
  | cons p l ih =>
    rw [run_cons] at h ⊢
    rcases lt_or_eq_of_le (run_old_tol_le inp l (body inp p.1 p.2 s)) with h1 | h1
    · obtain ⟨l₁, q, l₂, e1, e2, e3, e4, e5⟩ := ih _ h1
      refine ⟨p :: l₁, q, l₂, by rw [e1]; rfl, e2, ?_, e4, e5⟩
      intro x hx
      rcases List.mem_cons.mp hx with rfl | hx
      · refine lt_of_lt_of_le h1 ?_
        rw [body_old_tol]
        exact min_le_left _ _
      · exact e3 x hx
    · obtain ⟨o1, o2, _⟩ := run_of_old_tol_eq inp l _ h1
      have hlt : new_tol inp p.1 p.2 < s.old_tol := by
        by_contra hn
        rw [h1, body_of_not_lt inp p.1 p.2 s hn] at h
        exact lt_irrefl _ h
      refine ⟨[], p, l, rfl, ?_, by simp, ?_, ?_⟩
      · rw [h1, body_of_lt inp p.1 p.2 s hlt]
        rfl
      · rw [o1, body_of_lt inp p.1 p.2 s hlt]
        simp
      · rw [o2, body_of_lt inp p.1 p.2 s hlt]

/-! ## The whole search -/

theorem search_eq_state_after (inp : Inputs) : search inp = state_after inp grid.length := by
  rw [search_eq_run, state_after, List.take_length]

theorem state_after_add (inp : Inputs) (k d : ℕ) :
    state_after inp (k + d) = run inp ((grid.drop k).take d) (state_after inp k) := by
  rw [state_after, state_after, List.take_add, run_append]

theorem mem_grid_of_mem_take (k : ℕ) (p : ℕ × ℕ) (h : p ∈ grid.take k) : p ∈ grid :=
  List.mem_of_mem_take h

theorem grid_split_before (l₁ l₂ : List (ℕ × ℕ)) (p q : ℕ × ℕ) (hg : grid = l₁ ++ p :: l₂)
    (hq : q ∈ grid) (hb : before q p) : q ∈ l₁ := by
  have hpw := pairwise_grid
  rw [hg] at hpw hq
  rcases List.mem_append.mp hq with h | h
  · exact h
  · rcases List.mem_cons.mp h with rfl | h
    · exact absurd hb (before_irrefl _)
    · have h2 := (List.pairwise_append.mp hpw).2.1
      exact absurd hb (before_asymm _ _ ((List.pairwise_cons.mp h2).1 q h))

theorem run_out_iff (inp : Inputs) (l : List (ℕ × ℕ)) (s : State)
    (hs : s.converged = true ↔ s.out ≠ []) :
    (run inp l s).converged = true ↔ (run inp l s).out ≠ [] := by
  induction l generalizing s with
  | nil => exact hs
  | cons p l ih =>
    rw [run_cons]
    refine ih _ ?_
    by_cases hlt : new_tol inp p.1 p.2 < s.old_tol
    · rw [body_of_lt inp p.1 p.2 s hlt]
      simp
    · rw [body_of_not_lt inp p.1 p.2 s hlt]
      exact hs

theorem search_converged_iff (inp : Inputs) :
    (search inp).converged = true ↔ ∃ p ∈ grid, tol_at inp p < initial_tol := by
  rw [search_eq_run, run_converged_iff]
  simp [init]

theorem search_out_iff (inp : Inputs) :
    (search inp).converged = true ↔ (search inp).out ≠ [] := by
  rw [search_eq_run]
  exact run_out_iff inp grid init (by simp [init])

theorem classify_eq_zero_iff (s : State) : classify s = 0 ↔ s.converged = true := by
  unfold classify
  split_ifs <;> simp_all

theorem classify_eq_two_iff (s : State)
    (hs : s.converged = false ↔ s.iterations_to_convergence = 0) :
    classify s = 2 ↔ s.converged = false := by
  unfold classify
  by_cases hc : s.converged = true
  · simp [hc]
  · have hc2 : s.converged = false := by simpa using hc
    have h0 := hs.mp hc2
    simp [hc2, h0, inner_iter]

theorem state_after_flag_iff (inp : Inputs) (k : ℕ) :
    (state_after inp k).converged = false ↔
      (state_after inp k).iterations_to_convergence = 0 := by
  refine run_flag_iff inp _ init ?_ (by simp [init])
  intro p hp
  exact ((mem_grid p).mp (mem_grid_of_mem_take k p hp)).2.1

theorem search_flag_iff (inp : Inputs) :
    (search inp).converged = false ↔ (search inp).iterations_to_convergence = 0 := by
  rw [search_eq_state_after]
  exact state_after_flag_iff inp _

/-! ## Bounds on the grid candidates and on the combined tolerance -/

theorem A_of_lt (inp : Inputs) (i : ℕ) (h : i < n) : A inp i = inp.E + inp.D / 2 := by
  unfold A
  rw [Nat.div_eq_of_lt h]
  simp

theorem sigma_A_of_lt (j : ℕ) (h : j < inner_iter) : sigma_A j = 0.05 := by
  unfold sigma_A
  rw [Nat.div_eq_of_lt h]
  simp

theorem A_lower (inp : Inputs) (i : ℕ) (hD : 0 ≤ inp.D) : inp.E + inp.D / 2 ≤ A inp i := by
  unfold A
  have : 0 ≤ ((i / n : ℕ) : ℝ) * inp.D := mul_nonneg (Nat.cast_nonneg _) hD
  linarith

theorem A_upper (inp : Inputs) (i : ℕ) (hi : i ≤ outer_iter) (hD : 0 ≤ inp.D) :
    A inp i ≤ inp.E + inp.D / 2 + inp.D := by
  unfold A
  have h1 : i / n ≤ 1 := by
    unfold n
    unfold outer_iter at hi
    omega
  have h2 : ((i / n : ℕ) : ℝ) ≤ 1 := by exact_mod_cast h1
  have : ((i / n : ℕ) : ℝ) * inp.D ≤ 1 * inp.D := mul_le_mul_of_nonneg_right h2 hD
  linarith

theorem sigma_A_lower (j : ℕ) : 0.05 ≤ sigma_A j := by
  unfold sigma_A epsilon
  have : 0 ≤ ((j / inner_iter : ℕ) : ℝ) * (1.0 - 0.00001) :=
    mul_nonneg (Nat.cast_nonneg _) (by norm_num)
  linarith

theorem sigma_A_upper (j : ℕ) (hj : j ≤ inner_iter) : sigma_A j ≤ 1.05 := by
  unfold sigma_A epsilon
  have h1 : j / inner_iter ≤ 1 := by
    unfold inner_iter at hj ⊢
    omega
  have h2 : ((j / inner_iter : ℕ) : ℝ) ≤ 1 := by exact_mod_cast h1
  have : ((j / inner_iter : ℕ) : ℝ) * (1.0 - 0.00001) ≤ 1 * (1.0 - 0.00001) :=
    mul_le_mul_of_nonneg_right h2 (by norm_num)
  norm_num at this ⊢
  linarith

theorem new_tol_upper (inp : Inputs) (i j : ℕ) (hE : 0 < inp.E) (hD : 0 ≤ inp.D)
    (hrT : 0 ≤ inp.r * inp.T) :
    new_tol inp i j ≤
      (A inp i + inp.D + inp.E) / A inp i + (A inp i / inp.E * sigma_A j + |inp.sigma_E|) := by
  have hA : 0 < A inp i := by
    have := A_lower inp i hD
    linarith
  have hs : 0 ≤ sigma_A j := by
    have := sigma_A_lower j
    linarith
  have hN1 := N_nonneg (d1 inp i j)
  have hN1' := N_le_one (d1 inp i j)
  have hN2 := N_nonneg (d2 inp i j)
  have hN2' := N_le_one (d2 inp i j)
  have hexp : Real.exp (-inp.r * inp.T) ≤ 1 := by
    rw [Real.exp_le_one_iff]
    linarith
  have hexp0 : 0 ≤ inp.D * Real.exp (-inp.r * inp.T) := mul_nonneg hD (Real.exp_pos _).le
  have hDe : inp.D * Real.exp (-inp.r * inp.T) ≤ inp.D := by
    have := mul_le_mul_of_nonneg_left hexp hD
    linarith
  have hP : inp.D * Real.exp (-inp.r * inp.T) * N (d2 inp i j) ≤ inp.D := by
    have := mul_le_mul hDe hN2' hN2 hD
    linarith
  have hP0 : 0 ≤ inp.D * Real.exp (-inp.r * inp.T) * N (d2 inp i j) := mul_nonneg hexp0 hN2
  have hQ : A inp i * N (d1 inp i j) ≤ A inp i := by
    have := mul_le_mul_of_nonneg_left hN1' hA.le
    linarith
  have hQ0 : 0 ≤ A inp i * N (d1 inp i j) := mul_nonneg hA.le hN1
  have h1 : |A_diff inp i j| ≤ (A inp i + inp.D + inp.E) / A inp i := by
    unfold A_diff
    rw [abs_div, abs_of_pos hA]
    refine div_le_div_of_nonneg_right ?_ hA.le
    rw [abs_le]
    constructor <;> linarith
  have hAE : 0 ≤ A inp i / inp.E := div_nonneg hA.le hE.le
  have hR : A inp i / inp.E * N (d1 inp i j) * sigma_A j ≤ A inp i / inp.E * sigma_A j := by
    have := mul_le_mul_of_nonneg_left hN1' hAE
    have := mul_le_mul_of_nonneg_right this hs
    linarith
  have hR0 : 0 ≤ A inp i / inp.E * N (d1 inp i j) * sigma_A j :=
    mul_nonneg (mul_nonneg hAE hN1) hs
  have h2 : |sigma_E_diff inp i j| ≤ A inp i / inp.E * sigma_A j + |inp.sigma_E| := by
    unfold sigma_E_diff
    refine (abs_sub _ _).trans ?_
    rw [abs_of_nonneg hR0]
    linarith
  unfold new_tol
  linarith

theorem new_tol_lower (inp : Inputs) (i j : ℕ) (hE : 0 < inp.E) (hA : 0 ≤ A inp i) :
    inp.sigma_E - A inp i / inp.E * sigma_A j ≤ new_tol inp i j := by
  have hs : 0 ≤ sigma_A j := by
    have := sigma_A_lower j
    linarith
  have hN1 := N_nonneg (d1 inp i j)
  have hN1' := N_le_one (d1 inp i j)
  have hAE : 0 ≤ A inp i / inp.E := div_nonneg hA hE.le
  have hR : A inp i / inp.E * N (d1 inp i j) * sigma_A j ≤ A inp i / inp.E * sigma_A j := by
    have := mul_le_mul_of_nonneg_left hN1' hAE
    have := mul_le_mul_of_nonneg_right this hs
    linarith
  have h2 : inp.sigma_E - A inp i / inp.E * sigma_A j ≤ |sigma_E_diff inp i j| := by
    unfold sigma_E_diff
    have := neg_abs_le (A inp i / inp.E * N (d1 inp i j) * sigma_A j - inp.sigma_E)
    linarith
  unfold new_tol
  have := abs_nonneg (A_diff inp i j)
  linarith

theorem one_one_mem_grid : ((1, 1) : ℕ × ℕ) ∈ grid := by
  rw [mem_grid]
  simp [outer_iter, inner_iter]

theorem search_old_tol_lt_of_first (inp : Inputs) (h : new_tol inp 1 1 < initial_tol) :
    (search inp).old_tol < initial_tol := by
  rw [search_eq_run]
  exact lt_of_le_of_lt (run_old_tol_le_tol inp grid init (1, 1) one_one_mem_grid) h

theorem search_last_event (inp : Inputs) (h : (search inp).old_tol < initial_tol) :
    ∃ p ∈ grid, tol_at inp p = (search inp).old_tol ∧
      (∀ q ∈ grid, before q p → (search inp).old_tol < tol_at inp q) ∧
      (search inp).out.getLast? = some (report inp p.1 p.2) ∧
      (search inp).iterations_to_convergence = p.1 * inner_iter + p.2 := by
  rw [search_eq_run] at h ⊢
  obtain ⟨l₁, p, l₂, e1, e2, e3, e4, e5⟩ := run_first_attaining inp grid init h
  refine ⟨p, by rw [e1]; simp, e2, ?_, e4, e5⟩
  intro q hq hb
  exact e3 q (grid_split_before l₁ l₂ p q e1 hq hb)

theorem coursework_first_tol : new_tol ⟨3, 10, 1, 0.05, 0.3⟩ 1 1 < initial_tol := by
  have hb := new_tol_upper ⟨3, 10, 1, 0.05, 0.3⟩ 1 1 (by norm_num) (by norm_num) (by norm_num)
  rw [A_of_lt _ 1 (by decide), sigma_A_of_lt 1 (by decide)] at hb
  unfold initial_tol
  norm_num [abs_of_pos] at hb
  linarith

theorem scenario_first_tol : new_tol ⟨5, 5, 0.5, 0.02, 0.4⟩ 1 1 < initial_tol := by
  have hb := new_tol_upper ⟨5, 5, 0.5, 0.02, 0.4⟩ 1 1 (by norm_num) (by norm_num) (by norm_num)
  rw [A_of_lt _ 1 (by decide), sigma_A_of_lt 1 (by decide)] at hb
  unfold initial_tol
  norm_num [abs_of_pos] at hb
  linarith

theorem high_vol_tol (p : ℕ × ℕ) (hp : p ∈ grid) :
    ¬ tol_at ⟨1, 1, 1, 0.05, 100⟩ p < initial_tol := by
  obtain ⟨⟨_, hi⟩, _, hj⟩ := (mem_grid p).mp hp
  have hA1 := A_lower ⟨1, 1, 1, 0.05, 100⟩ p.1 (by norm_num)
  have hA2 := A_upper ⟨1, 1, 1, 0.05, 100⟩ p.1 hi (by norm_num)
  have hs1 := sigma_A_lower p.2
  have hs2 := sigma_A_upper p.2 hj
  have hl := new_tol_lower ⟨1, 1, 1, 0.05, 100⟩ p.1 p.2 (by norm_num) (by norm_num at hA1; linarith)
  norm_num at hA1 hA2 hs1 hs2 hl
  have hm : A ⟨1, 1, 1, 0.05, 100⟩ p.1 * sigma_A p.2 ≤ (5 / 2) * (21 / 20) :=
    mul_le_mul hA2 hs2 (by linarith) (by norm_num)
  unfold tol_at initial_tol
  linarith

theorem search_out (inp : Inputs) :
    (search inp).out.Pairwise (fun a b => b.tolerance < a.tolerance) ∧
      ∀ e ∈ (search inp).out, e.tolerance < initial_tol ∧
        (search inp).old_tol ≤ e.tolerance ∧ ∃ p ∈ grid, e = report inp p.1 p.2 := by
  obtain ⟨es, h1, h2, h3⟩ := run_out inp grid init
  rw [search_eq_run, h1]
  simpa [init] using And.intro h2 h3

/-! ## The four classes of grid points -/

theorem new_tol_congr (inp : Inputs) (i i' j j' : ℕ) (hi : i / n = i' / n)
    (hj : j / inner_iter = j' / inner_iter) : new_tol inp i j = new_tol inp i' j' := by
  have hA : A inp i = A inp i' := by unfold A; rw [hi]
  have hs : sigma_A j = sigma_A j' := by unfold sigma_A; rw [hj]
  simp only [new_tol, A_diff, sigma_E_diff, d1, d2, hA, hs]

theorem corner_of_mem (p : ℕ × ℕ) : corner_of p ∈ corners := by
  unfold corner_of corners
  split_ifs <;> simp

theorem corners_subset_grid (p : ℕ × ℕ) (hp : p ∈ corners) : p ∈ grid := by
  rw [mem_grid]
  simp only [corners, List.mem_cons, List.mem_singleton, List.not_mem_nil, or_false] at hp
  rcases hp with rfl | rfl | rfl | rfl <;> simp [outer_iter, inner_iter]

theorem tol_at_corner_of (inp : Inputs) (p : ℕ × ℕ) (hp : p ∈ grid) :
    tol_at inp (corner_of p) = tol_at inp p := by
  obtain ⟨⟨h1, h2⟩, h3, h4⟩ := (mem_grid p).mp hp
  unfold tol_at
  refine new_tol_congr inp _ _ _ _ ?_ ?_
  · unfold corner_of n outer_iter at *
    split_ifs <;> simp only <;> omega
  · unfold corner_of inner_iter at *
    split_ifs <;> simp only <;> omega

theorem corner_of_before (p : ℕ × ℕ) (hp : p ∈ grid) (hne : corner_of p ≠ p) :
    before (corner_of p) p := by
  obtain ⟨⟨h1, h2⟩, h3, h4⟩ := (mem_grid p).mp hp
  obtain ⟨i, j⟩ := p
  unfold before
  unfold corner_of n outer_iter inner_iter at *
  simp only [ne_eq, Prod.mk.injEq] at hne ⊢
  split_ifs at hne ⊢ <;> omega

theorem run_out_strict (inp : Inputs) (l : List (ℕ × ℕ)) (s : State) :
    ∃ es : List Event, (run inp l s).out = s.out ++ es ∧
      ∀ e ∈ es, ∃ (l₁ : List (ℕ × ℕ)) (p : ℕ × ℕ) (l₂ : List (ℕ × ℕ)),
        l = l₁ ++ p :: l₂ ∧ e = report inp p.1 p.2 ∧ tol_at inp p < s.old_tol ∧
          ∀ q ∈ l₁, tol_at inp p < tol_at inp q := by
  induction l generalizing s with
  | nil => exact ⟨[], by simp [run_nil], by simp⟩
  | cons q l ih =>
    rw [run_cons]
    obtain ⟨es, h1, h2⟩ := ih (body inp q.1 q.2 s)
    have hstep : ∀ e ∈ es, ∃ (l₁ : List (ℕ × ℕ)) (p : ℕ × ℕ) (l₂ : List (ℕ × ℕ)),
        q :: l = l₁ ++ p :: l₂ ∧ e = report inp p.1 p.2 ∧ tol_at inp p < s.old_tol ∧
          ∀ x ∈ l₁, tol_at inp p < tol_at inp x := by
      intro e he
      obtain ⟨l₁, p, l₂, e1, e2, e3, e4⟩ := h2 e he
      rw [body_old_tol] at e3
      refine ⟨q :: l₁, p, l₂, by rw [e1]; rfl, e2, lt_of_lt_of_le e3 (min_le_right _ _), ?_⟩
      intro x hx
      rcases List.mem_cons.mp hx with rfl | hx
      · exact lt_of_lt_of_le e3 (min_le_left _ _)
      · exact e4 x hx
    by_cases hlt : new_tol inp q.1 q.2 < s.old_tol
    · have hout : (body inp q.1 q.2 s).out = s.out ++ [report inp q.1 q.2] := by
        rw [body_of_lt inp q.1 q.2 s hlt]
      refine ⟨report inp q.1 q.2 :: es, by rw [h1, hout]; simp, ?_⟩
      intro e he
      rcases List.mem_cons.mp he with rfl | he
      · exact ⟨[], q, l, rfl, rfl, hlt, by simp⟩
      · exact hstep e he
    · have hout : (body inp q.1 q.2 s).out = s.out := by
        rw [body_of_not_lt inp q.1 q.2 s hlt]
      exact ⟨es, by rw [h1, hout], hstep⟩

theorem search_event_corner (inp : Inputs) (e : Event) (he : e ∈ (search inp).out) :
    ∃ p ∈ corners, e = report inp p.1 p.2 := by
  obtain ⟨es, h1, h2⟩ := run_out_strict inp grid init
  rw [search_eq_run, h1] at he
  have he2 : e ∈ es := by simpa [init] using he
  obtain ⟨l₁, p, l₂, e1, e2, _, e4⟩ := h2 e he2
  have hp : p ∈ grid := by rw [e1]; simp
  refine ⟨p, ?_, e2⟩
  by_cases hc : corner_of p = p
  · rw [← hc]
    exact corner_of_mem p
  · have hb := corner_of_before p hp hc
    have hq := grid_split_before l₁ l₂ p (corner_of p) e1
      (corners_subset_grid _ (corner_of_mem p)) hb
    have := e4 _ hq
    rw [tol_at_corner_of inp p hp] at this
    exact absurd this (lt_irrefl _)

theorem search_out_length (inp : Inputs) : (search inp).out.length ≤ 4 := by
  have hpw := (search_out inp).1
  have hnd : ((search inp).out.map Event.tolerance).Nodup := by
    rw [List.Nodup, List.pairwise_map]
    exact hpw.imp (fun h => (ne_of_lt h).symm)
  have hsub : (search inp).out.map Event.tolerance ⊆ corners.map (tol_at inp) := by
    intro t ht
    obtain ⟨e, he, rfl⟩ := List.mem_map.mp ht
    obtain ⟨p, hp, rfl⟩ := search_event_corner inp e he
    exact List.mem_map.mpr ⟨p, hp, rfl⟩
  have := (List.subperm_of_subset hnd hsub).length_le
  simpa [corners] using this

theorem search_converged_iff_corner (inp : Inputs) :
    (search inp).converged = true ↔ ∃ p ∈ corners, tol_at inp p < initial_tol := by
  rw [search_converged_iff]
  constructor
  · rintro ⟨p, hp, h⟩
    exact ⟨corner_of p, corner_of_mem p, by rw [tol_at_corner_of inp p hp]; exact h⟩
  · rintro ⟨p, hp, h⟩
    exact ⟨p, corners_subset_grid p hp, h⟩

theorem foldl_min_le_init (l : List ℝ) (a : ℝ) : l.foldl min a ≤ a := by
  induction l generalizing a with
  | nil => exact le_refl _
  | cons x l ih => exact (ih _).trans (min_le_left _ _)

theorem foldl_min_le_mem (l : List ℝ) (a x : ℝ) (hx : x ∈ l) : l.foldl min a ≤ x := by
  induction l generalizing a with
  | nil => simp at hx
  | cons y l ih =>
    rcases List.mem_cons.mp hx with rfl | h
    · exact (foldl_min_le_init l _).trans (min_le_right _ _)
    · exact ih _ h

theorem foldl_min_attained (l : List ℝ) (a : ℝ) : l.foldl min a = a ∨ l.foldl min a ∈ l := by
  induction l generalizing a with
  | nil => exact Or.inl rfl
  | cons y l ih =>
    rcases ih (min a y) with h | h
    · rw [List.foldl_cons, h]
      rcases min_choice a y with h2 | h2
      · exact Or.inl h2
      · exact Or.inr (by rw [h2]; exact List.mem_cons_self _ _)
    · exact Or.inr (List.mem_cons_of_mem _ h)

theorem search_old_tol_corners (inp : Inputs) :
    (search inp).old_tol = (corners.map (tol_at inp)).foldl min initial_tol := by
  apply le_antisymm
  · rcases foldl_min_attained (corners.map (tol_at inp)) initial_tol with h | h
    · rw [h, search_eq_run]
      exact run_old_tol_le inp grid init
    · obtain ⟨p, hp, hpe⟩ := List.mem_map.mp h
      rw [← hpe, search_eq_run]
      exact run_old_tol_le_tol inp grid init p (corners_subset_grid p hp)
  · rw [search_eq_run]
    rcases run_old_tol_attained inp grid init with h | ⟨p, hp, h⟩
    · rw [h]
      exact foldl_min_le_init _ _
    · rw [h, ← tol_at_corner_of inp p hp]
      exact foldl_min_le_mem _ _ _ (List.mem_map.mpr ⟨_, corner_of_mem p, rfl⟩)

/-! ## Order independence -/

theorem foldl_min_perm (l₁ l₂ : List ℝ) (a : ℝ) (h : l₁.Perm l₂) :
    l₁.foldl min a = l₂.foldl min a := by
  induction h generalizing a with
  | nil => rfl
  | cons x _ ih => exact ih _
  | swap x y l =>
    simp only [List.foldl_cons]
    rw [min_assoc, min_assoc, min_comm y x]
  | trans _ _ ih₁ ih₂ => exact (ih₁ a).trans (ih₂ a)

theorem run_perm_old_tol (inp : Inputs) (l : List (ℕ × ℕ)) (h : l.Perm grid) :
    (run inp l init).old_tol = (search inp).old_tol := by
  rw [search_eq_run, run_old_tol, run_old_tol]
  exact foldl_min_perm _ _ _ (h.map _)

theorem run_perm_classify (inp : Inputs) (l : List (ℕ × ℕ)) (h : l.Perm grid) :
    classify (run inp l init) = classify (search inp) := by
  have hflag : (run inp l init).converged = false ↔
      (run inp l init).iterations_to_convergence = 0 := by
    refine run_flag_iff inp l init ?_ (by simp [init])
    intro p hp
    exact ((mem_grid p).mp (h.mem_iff.mp hp)).2.1
  have hconv : (run inp l init).converged = (search inp).converged := by
    rw [Bool.eq_iff_iff, search_converged_iff, run_converged_iff]
    simp only [init, Bool.false_eq_true, false_or]
    constructor
    · rintro ⟨p, hp, hlt⟩
      exact ⟨p, h.mem_iff.mp hp, hlt⟩
    · rintro ⟨p, hp, hlt⟩
      exact ⟨p, h.mem_iff.mpr hp, hlt⟩
  by_cases hc : (search inp).converged = true
  · rw [(classify_eq_zero_iff _).mpr hc, (classify_eq_zero_iff _).mpr (hconv.trans hc)]
  · have hc2 : (search inp).converged = false := by simpa using hc
    rw [(classify_eq_two_iff _ (search_flag_iff inp)).mpr hc2,
      (classify_eq_two_iff _ hflag).mpr (hconv.trans hc2)]

/-! ## Values of the candidates at the ends of the sweeps -/

theorem A_at_top (inp : Inputs) : A inp 10000 = inp.E + inp.D / 2 + inp.D := by
  unfold A n
  norm_num

theorem sigma_A_at_top : sigma_A 1000 = 1.04999 := by
  unfold sigma_A inner_iter epsilon
  norm_num

theorem before_total (p q : ℕ × ℕ) : before p q ∨ p = q ∨ before q p := by
  obtain ⟨a, b⟩ := p
  obtain ⟨c, d⟩ := q
  unfold before
  simp only [Prod.mk.injEq]
  omega

theorem two_one_mem_grid : ((2, 1) : ℕ × ℕ) ∈ grid := by
  rw [mem_grid]
  simp [outer_iter, inner_iter]

/-! ## The claims -/

/-- C1: after the whole grid has been scanned, `old_tol` is the minimum of the initial
tolerance 10 and the combined tolerances of all grid points (it is a lower bound of
them and is attained); and when it is below 10, the last record printed and
`iterations_to_convergence` belong to the first grid point in processing order whose
combined tolerance equals it. -/
theorem search_retains_minimum (inp : Inputs) :
    (search inp).old_tol = (grid.map (tol_at inp)).foldl min initial_tol ∧
    (search inp).old_tol ≤ initial_tol ∧
    (∀ p ∈ grid, (search inp).old_tol ≤ tol_at inp p) ∧
    ((search inp).old_tol = initial_tol ∨ ∃ p ∈ grid, (search inp).old_tol = tol_at inp p) ∧
    ((search inp).old_tol < initial_tol →
      ∃ p ∈ grid, tol_at inp p = (search inp).old_tol ∧
        (∀ q ∈ grid, before q p → (search inp).old_tol < tol_at inp q) ∧
        (search inp).out.getLast? = some (report inp p.1 p.2) ∧
        (search inp).iterations_to_convergence = p.1 * inner_iter + p.2) := by
  refine ⟨?_, ?_, ?_, ?_, search_last_event inp⟩
  · rw [search_eq_run, run_old_tol]; rfl
  · rw [search_eq_run]; exact run_old_tol_le inp grid init
  · rw [search_eq_run]; exact run_old_tol_le_tol inp grid init
  · rw [search_eq_run]; exact run_old_tol_attained inp grid init

/-- C2: `newton_raphson_algorithm` returns 0 exactly when at least one record was
printed, which is exactly when some grid point has combined tolerance strictly below
the initial tolerance 10; and the status of any final state is 0 exactly when
`converged` is set, whatever `iterations_to_convergence` holds. -/
theorem returns_zero_iff_improved (E D T r sigma_E : ℝ) :
    (newton_raphson_algorithm E D T r sigma_E = 0 ↔
        (search ⟨E, D, T, r, sigma_E⟩).out ≠ []) ∧
    (newton_raphson_algorithm E D T r sigma_E = 0 ↔
        ∃ p ∈ grid, tol_at ⟨E, D, T, r, sigma_E⟩ p < initial_tol) ∧
    (∀ s : State, classify s = 0 ↔ s.converged = true) := by
  refine ⟨?_, ?_, classify_eq_zero_iff⟩
  · rw [newton_raphson_algorithm, classify_eq_zero_iff, search_out_iff]
  · rw [newton_raphson_algorithm, classify_eq_zero_iff, search_converged_iff]

/-- C3: `newton_raphson_algorithm` never returns 1; after any number of processed grid
points `converged` is false exactly when `iterations_to_convergence` is 0, so whenever
`iterations_to_convergence >= 1000 * inner_iter` holds, `converged` is already true. -/
theorem never_returns_one (E D T r sigma_E : ℝ) :
    newton_raphson_algorithm E D T r sigma_E ≠ 1 ∧
    (∀ k : ℕ, (state_after ⟨E, D, T, r, sigma_E⟩ k).converged = false ↔
        (state_after ⟨E, D, T, r, sigma_E⟩ k).iterations_to_convergence = 0) ∧
    (∀ k : ℕ, 1000 * inner_iter ≤
        (state_after ⟨E, D, T, r, sigma_E⟩ k).iterations_to_convergence →
        (state_after ⟨E, D, T, r, sigma_E⟩ k).converged = true) ∧
    search ⟨E, D, T, r, sigma_E⟩ = state_after ⟨E, D, T, r, sigma_E⟩ grid.length := by
  refine ⟨?_, state_after_flag_iff _, ?_, search_eq_state_after _⟩
  · have hf := search_flag_iff ⟨E, D, T, r, sigma_E⟩
    unfold newton_raphson_algorithm classify
    by_cases hc : (search ⟨E, D, T, r, sigma_E⟩).converged = true
    · simp [hc]
    · have hc2 : (search ⟨E, D, T, r, sigma_E⟩).converged = false := by simpa using hc
      simp [hc2, hf.mp hc2, inner_iter]
  · intro k hk
    have hf := state_after_flag_iff ⟨E, D, T, r, sigma_E⟩ k
    by_contra hc
    have hc2 : (state_after ⟨E, D, T, r, sigma_E⟩ k).converged = false := by simpa using hc
    rw [hf.mp hc2] at hk
    simp [inner_iter] at hk

/-- C4: status 2 is reachable: for `E = 1, D = 1, T = 1, r = 0.05, sigma_E = 100`
(all positive) no grid point has combined tolerance below 10, the function returns 2
and nothing is printed. -/
theorem invalid_volatility_reachable :
    ∃ E D T r sigma_E : ℝ, 0 < E ∧ 0 < D ∧ 0 < T ∧ 0 < sigma_E ∧
      (∀ p ∈ grid, ¬ tol_at ⟨E, D, T, r, sigma_E⟩ p < initial_tol) ∧
      newton_raphson_algorithm E D T r sigma_E = 2 ∧
      (search ⟨E, D, T, r, sigma_E⟩).out = [] := by
  refine ⟨1, 1, 1, 0.05, 100, by norm_num, by norm_num, by norm_num, by norm_num,
    high_vol_tol, ?_, ?_⟩
  · have hc : (search ⟨1, 1, 1, 0.05, 100⟩).converged = false := by
      by_contra hc
      obtain ⟨p, hp, hlt⟩ := (search_converged_iff _).mp (by simpa using hc)
      exact high_vol_tol p hp hlt
    rw [newton_raphson_algorithm, classify_eq_two_iff _ (search_flag_iff _)]
    exact hc
  · by_contra hne
    obtain ⟨p, hp, hlt⟩ := (search_converged_iff _).mp ((search_out_iff _).mpr hne)
    exact high_vol_tol p hp hlt

/-- C5: in the records printed by one run, in the order they were printed, every record's
tolerance is strictly smaller than that of every earlier record and strictly smaller
than the initial tolerance 10; and `old_tol` never increases as more grid points are
processed. -/
theorem improvement_is_monotone (inp : Inputs) :
    (search inp).out.Pairwise (fun a b => b.tolerance < a.tolerance) ∧
    (∀ e ∈ (search inp).out, e.tolerance < initial_tol) ∧
    (∀ k d : ℕ, (state_after inp (k + d)).old_tol ≤ (state_after inp k).old_tol) ∧
    search inp = state_after inp grid.length := by
  refine ⟨(search_out inp).1, fun e he => ((search_out inp).2 e he).1, ?_,
    search_eq_state_after inp⟩
  intro k d
  rw [state_after_add]
  exact run_old_tol_le inp _ _

/-- C6: for `E = 3, D = 10, T = 1, r = 0.05, sigma_E = 0.3` the search (a total function)
returns 0, and the last record printed carries the final `old_tol`, which is at most the
initial tolerance 10. -/
theorem coursework_input_converges :
    newton_raphson_algorithm 3 10 1 0.05 0.3 = 0 ∧
    (search ⟨3, 10, 1, 0.05, 0.3⟩).old_tol ≤ initial_tol ∧
    ∃ e : Event, (search ⟨3, 10, 1, 0.05, 0.3⟩).out.getLast? = some e ∧
      e.tolerance = (search ⟨3, 10, 1, 0.05, 0.3⟩).old_tol ∧ e.tolerance ≤ initial_tol := by
  have hlt := search_old_tol_lt_of_first _ coursework_first_tol
  refine ⟨?_, hlt.le, ?_⟩
  · rw [newton_raphson_algorithm, classify_eq_zero_iff, search_converged_iff]
    exact ⟨(1, 1), one_one_mem_grid, coursework_first_tol⟩
  · obtain ⟨p, _, h1, _, h2, _⟩ := search_last_event _ hlt
    refine ⟨_, h2, h1, ?_⟩
    exact le_of_eq_of_le h1 hlt.le

/-- C7: every record printed by a run, for every input, has
`kmv_distance_to_default = (firm_value - D) / volatility` for the firm value and
volatility of that same record; for `E = 5, D = 5, T = 0.5, r = 0.02, sigma_E = 0.4` a
last record exists and satisfies the equation with `D = 5`. -/
theorem kmv_distance_matches_report :
    (∀ (inp : Inputs) (e : Event), e ∈ (search inp).out →
      e.kmv_distance_to_default = (e.firm_value - inp.D) / e.volatility) ∧
    ∃ e : Event, (search ⟨5, 5, 0.5, 0.02, 0.4⟩).out.getLast? = some e ∧
      e.kmv_distance_to_default = (e.firm_value - 5) / e.volatility := by
  constructor
  · intro inp e he
    obtain ⟨_, _, p, _, rfl⟩ := (search_out inp).2 e he
    rfl
  · obtain ⟨p, _, _, _, h2, _⟩ :=
      search_last_event _ (search_old_tol_lt_of_first _ scenario_first_tol)
    exact ⟨_, h2, rfl⟩

/-- C8: for every input the search is a total function and evaluates the residuals at
exactly the grid points `1 <= i <= 10000`, `1 <= j <= 1000`, each once, in processing
order: 10,000,000 evaluations, whether or not an improvement was found. -/
theorem evaluates_every_grid_point_once (inp : Inputs) :
    (search inp).evaluated = grid ∧
    (search inp).evaluated.length = 10000000 ∧
    (search inp).evaluated.Nodup ∧
    ∀ i j : ℕ, (i, j) ∈ (search inp).evaluated ↔
      (1 ≤ i ∧ i ≤ 10000) ∧ (1 ≤ j ∧ j ≤ 1000) := by
  have h : (search inp).evaluated = grid := by
    rw [search_eq_run, run_evaluated]
    exact List.nil_append grid
  refine ⟨h, ?_, ?_, ?_⟩
  · rw [h]
    exact length_grid
  · rw [h]
    exact nodup_grid
  · intro i j
    rw [h]
    exact mem_grid (i, j)

/-- C11: for every real `x` the value `N x = 0.5 * (1 + erf (x / sqrt 2))` lies in the
closed interval `[0, 1]`. -/
theorem N_in_unit_interval (x : ℝ) : 0 ≤ N x ∧ N x ≤ 1 :=
  ⟨N_nonneg x, N_le_one x⟩

/-- C12: with `int` division `i / n` is `0` for every `1 <= i < 10000`, where the candidate
asset value is the constant `E + D/2`; at `i = 10000` the quotient is `1` and the candidate
is `E + D/2 + D`; on `1..10000` the quotient is `1` only at `i = 10000`. -/
theorem outer_sweep_truncates :
    (∀ i : ℕ, 1 ≤ i → i < 10000 →
      i / n = 0 ∧ ∀ inp : Inputs, A inp i = inp.E + inp.D / 2) ∧
    (10000 / n = 1 ∧ ∀ inp : Inputs, A inp 10000 = inp.E + inp.D / 2 + inp.D) ∧
    (∀ i : ℕ, 1 ≤ i → i ≤ 10000 → (i / n = 1 ↔ i = 10000)) := by
  refine ⟨?_, ⟨by decide, A_at_top⟩, ?_⟩
  · intro i _ h2
    exact ⟨Nat.div_eq_of_lt h2, fun inp => A_of_lt inp i h2⟩
  · intro i _ h2
    unfold n
    omega

/-- C13, as stated, fails: for `E = 1`, `D = 2` the candidate asset value at `i = 10000`
is `4`, above `E + D = 3`. -/
theorem asset_value_above_equity_plus_debt :
    (0 : ℝ) < 2 ∧ 1 ≤ 10000 ∧ 10000 ≤ outer_iter ∧
      A ⟨1, 2, 1, 0.05, 0.3⟩ 10000 = 4 ∧ ¬ A ⟨1, 2, 1, 0.05, 0.3⟩ 10000 ≤ 1 + 2 := by
  have h : A ⟨1, 2, 1, 0.05, 0.3⟩ 10000 = 4 := by
    rw [A_at_top]
    norm_num
  refine ⟨by norm_num, by decide, by decide, h, ?_⟩
  rw [h]
  norm_num

/-- C13, amended: for every `E`, every `D > 0` and every `i <= outer_iter` (in particular
`i = 1..outer_iter`) the candidate asset value lies between equity plus half the debt and
equity plus one and a half times the debt, `E + D/2 <= A <= E + 3D/2`. -/
theorem asset_value_range (inp : Inputs) (i : ℕ) (hD : 0 < inp.D) (hi : i ≤ outer_iter) :
    inp.E + inp.D / 2 ≤ A inp i ∧ A inp i ≤ inp.E + 3 * inp.D / 2 := by
  refine ⟨A_lower inp i hD.le, ?_⟩
  have := A_upper inp i hi hD.le
  linarith

/-- Witness for the amended C13 at `E = 1`, `D = 2`, `i = 10000`. -/
theorem asset_value_range_witness :
    (0 : ℝ) < 2 ∧ 10000 ≤ outer_iter ∧
      (1 : ℝ) + 2 / 2 ≤ A ⟨1, 2, 1, 0.05, 0.3⟩ 10000 ∧
        A ⟨1, 2, 1, 0.05, 0.3⟩ 10000 ≤ 1 + 3 * 2 / 2 :=
  ⟨by norm_num, by decide,
    asset_value_range ⟨1, 2, 1, 0.05, 0.3⟩ 10000 (by norm_num) (by decide)⟩

/-- C14: for every index `j <= 1000` (in particular `j = 1..1000`) the candidate asset
volatility satisfies `0.05 <= sigma_A < 1.05`; it is exactly `0.05` when `j < 1000` and
exactly `0.05 + (1 - 0.00001) = 1.04999` when `j = 1000`. -/
theorem sigma_A_values (j : ℕ) (hj : j ≤ inner_iter) :
    (0.05 ≤ sigma_A j ∧ sigma_A j < 1.05) ∧
    (j < 1000 → j / inner_iter = 0 ∧ sigma_A j = 0.05) ∧
    (j = 1000 → j / inner_iter = 1 ∧ sigma_A j = 0.05 + (1 - 0.00001) ∧
      sigma_A j = 1.04999) := by
  refine ⟨⟨sigma_A_lower j, ?_⟩, ?_, ?_⟩
  · rcases Nat.lt_or_ge j inner_iter with h | h
    · rw [sigma_A_of_lt j h]
      norm_num
    · have h2 : j = 1000 := le_antisymm hj h
      rw [h2, sigma_A_at_top]
      norm_num
  · intro h
    exact ⟨Nat.div_eq_of_lt h, sigma_A_of_lt j h⟩
  · rintro rfl
    refine ⟨by decide, ?_, sigma_A_at_top⟩
    rw [sigma_A_at_top]
    norm_num

/-- Witness for C14 at `j = 1000`. -/
theorem sigma_A_values_witness :
    1000 ≤ inner_iter ∧ sigma_A 1000 < 1.05 ∧ sigma_A 1000 = 1.04999 :=
  ⟨by decide, (sigma_A_values 1000 (by decide)).1.2,
    ((sigma_A_values 1000 (by decide)).2.2 rfl).2.2⟩

/-- C16, as stated, fails: for `E = 3, D = 10, T = 1, r = 0.05, sigma_E = 0.3` the distinct
grid points `(1, 1)` and `(2, 1)` have the same combined tolerance. -/
theorem distinct_grid_points_tie :
    ((0 : ℝ) < 3 ∧ (0 : ℝ) < 10 ∧ (0 : ℝ) < 1) ∧
      ((1, 1) : ℕ × ℕ) ∈ grid ∧ ((2, 1) : ℕ × ℕ) ∈ grid ∧ ((1, 1) : ℕ × ℕ) ≠ (2, 1) ∧
      new_tol ⟨3, 10, 1, 0.05, 0.3⟩ 1 1 = new_tol ⟨3, 10, 1, 0.05, 0.3⟩ 2 1 :=
  ⟨⟨by norm_num, by norm_num, by norm_num⟩, one_one_mem_grid, two_one_mem_grid, by decide,
    new_tol_congr _ 1 2 1 1 (by decide) rfl⟩

/-- C16, amended: distinct grid points may tie, and the strict comparison breaks ties by
processing order: whenever some grid point has combined tolerance below 10, the record
printed last and `iterations_to_convergence` belong to a grid point `p` of minimal
combined tolerance, and every other grid point with that same tolerance comes after `p`
in processing order. -/
theorem ties_resolved_by_processing_order (inp : Inputs)
    (h : ∃ q ∈ grid, tol_at inp q < initial_tol) :
    ∃ p ∈ grid, (∀ q ∈ grid, tol_at inp p ≤ tol_at inp q) ∧
      (∀ q ∈ grid, tol_at inp q = tol_at inp p → q = p ∨ before p q) ∧
      (search inp).out.getLast? = some (report inp p.1 p.2) ∧
      (search inp).iterations_to_convergence = p.1 * inner_iter + p.2 := by
  obtain ⟨q0, hq0, hlt0⟩ := h
  have hlt : (search inp).old_tol < initial_tol := by
    rw [search_eq_run]
    exact lt_of_le_of_lt (run_old_tol_le_tol inp grid init q0 hq0) hlt0
  obtain ⟨p, hp, e1, e2, e3, e4⟩ := search_last_event inp hlt
  refine ⟨p, hp, ?_, ?_, e3, e4⟩
  · intro q hq
    rw [e1, search_eq_run]
    exact run_old_tol_le_tol inp grid init q hq
  · intro q hq heq
    rcases before_total q p with hb | hb | hb
    · have := e2 q hq hb
      rw [heq, e1] at this
      exact absurd this (lt_irrefl _)
    · exact Or.inl hb
    · exact Or.inr hb

/-- Witness for the amended C16 at `E = 3, D = 10, T = 1, r = 0.05, sigma_E = 0.3`, where
grid point `(1, 1)` has combined tolerance below 10. -/
theorem ties_resolved_by_processing_order_witness :
    (∃ q ∈ grid, tol_at ⟨3, 10, 1, 0.05, 0.3⟩ q < initial_tol) ∧
      ∃ p ∈ grid, (∀ q ∈ grid, tol_at ⟨3, 10, 1, 0.05, 0.3⟩ p ≤ tol_at ⟨3, 10, 1, 0.05, 0.3⟩ q) ∧
        (∀ q ∈ grid, tol_at ⟨3, 10, 1, 0.05, 0.3⟩ q = tol_at ⟨3, 10, 1, 0.05, 0.3⟩ p →
          q = p ∨ before p q) ∧
        (search ⟨3, 10, 1, 0.05, 0.3⟩).out.getLast? =
          some (report ⟨3, 10, 1, 0.05, 0.3⟩ p.1 p.2) ∧
        (search ⟨3, 10, 1, 0.05, 0.3⟩).iterations_to_convergence = p.1 * inner_iter + p.2 :=
  ⟨⟨(1, 1), one_one_mem_grid, coursework_first_tol⟩,
    ties_resolved_by_processing_order ⟨3, 10, 1, 0.05, 0.3⟩
      ⟨(1, 1), one_one_mem_grid, coursework_first_tol⟩⟩

/-- C17: for every input and every list `l` that is a permutation of the grid, folding the
loop body (the strict-less-than update) over `l` from the initial state (`old_tol = 10`,
`converged = false`) ends with the same best tolerance and the same status code as the
reference order of `newton_raphson_algorithm`. -/
theorem reduction_order_independent (E D T r sigma_E : ℝ) (l : List (ℕ × ℕ))
    (h : l.Perm grid) :
    (run ⟨E, D, T, r, sigma_E⟩ l init).old_tol = (search ⟨E, D, T, r, sigma_E⟩).old_tol ∧
    classify (run ⟨E, D, T, r, sigma_E⟩ l init) = newton_raphson_algorithm E D T r sigma_E :=
  ⟨run_perm_old_tol _ l h, run_perm_classify _ l h⟩

/-- Witness for C17 at `E = 3, D = 10, T = 1, r = 0.05, sigma_E = 0.3` with the grid
processed in reverse order. -/
theorem reduction_order_independent_witness :
    grid.reverse.Perm grid ∧
      (run ⟨3, 10, 1, 0.05, 0.3⟩ grid.reverse init).old_tol =
        (search ⟨3, 10, 1, 0.05, 0.3⟩).old_tol ∧
      classify (run ⟨3, 10, 1, 0.05, 0.3⟩ grid.reverse init) =
        newton_raphson_algorithm 3 10 1 0.05 0.3 :=
  ⟨List.reverse_perm grid,
    reduction_order_independent 3 10 1 0.05 0.3 grid.reverse (List.reverse_perm grid)⟩

/-- C18: for every input a run prints at most 4 records, each at one of the grid points
`(1,1)`, `(1,1000)`, `(10000,1)`, `(10000,1000)`, so every reported
`iterations_to_convergence` is one of `1001`, `2000`, `10000001`, `10001000`; the final
`old_tol` is the minimum of 10 and the combined tolerances of these four points, the
status is 0 exactly when one of the four is below 10, and the four candidates are
`A = E + D/2` or `E + 3D/2` with `sigma_A = 0.05` or `1.04999`. -/
theorem only_four_candidates (inp : Inputs) :
    (search inp).out.length ≤ 4 ∧
    (∀ e ∈ (search inp).out,
      ∃ p ∈ [((1, 1) : ℕ × ℕ), (1, 1000), (10000, 1), (10000, 1000)],
        e = report inp p.1 p.2) ∧
    (∀ e ∈ (search inp).out, e.iterations ∈ [1001, 2000, 10000001, 10001000]) ∧
    ((search inp).iterations_to_convergence ∈ [0, 1001, 2000, 10000001, 10001000]) ∧
    (search inp).old_tol =
      min (min (min (min initial_tol (new_tol inp 1 1)) (new_tol inp 1 1000))
        (new_tol inp 10000 1)) (new_tol inp 10000 1000) ∧
    (newton_raphson_algorithm inp.E inp.D inp.T inp.r inp.sigma_E = 0 ↔
      (new_tol inp 1 1 < initial_tol ∨ new_tol inp 1 1000 < initial_tol ∨
        new_tol inp 10000 1 < initial_tol ∨ new_tol inp 10000 1000 < initial_tol)) ∧
    (A inp 1 = inp.E + inp.D / 2 ∧ A inp 10000 = inp.E + 3 * inp.D / 2 ∧
      sigma_A 1 = 0.05 ∧ sigma_A 1000 = 1.04999) := by
  have hev : ∀ e ∈ (search inp).out,
      ∃ p ∈ [((1, 1) : ℕ × ℕ), (1, 1000), (10000, 1), (10000, 1000)],
        e = report inp p.1 p.2 := fun e he => search_event_corner inp e he
  have hit : ∀ e ∈ (search inp).out, e.iterations ∈ [1001, 2000, 10000001, 10001000] := by
    intro e he
    obtain ⟨p, hp, rfl⟩ := hev e he
    simp only [List.mem_cons, List.mem_singleton, List.not_mem_nil, or_false] at hp
    rcases hp with rfl | rfl | rfl | rfl <;> simp [report, inner_iter]
  refine ⟨search_out_length inp, hev, hit, ?_, ?_, ?_, ?_⟩
  · by_cases hc : (search inp).old_tol < initial_tol
    · obtain ⟨p, _, _, _, e3, e4⟩ := search_last_event inp hc
      have hmem : report inp p.1 p.2 ∈ (search inp).out := List.mem_of_getLast?_eq_some e3
      have := hit _ hmem
      rw [e4]
      exact List.mem_cons_of_mem _ this
    · have heq : (search inp).old_tol = init.old_tol := by
        rw [search_eq_run]
        exact le_antisymm (run_old_tol_le inp grid init)
          (by rw [← search_eq_run]; exact not_lt.mp hc)
      rw [search_eq_run] at heq ⊢
      rw [(run_of_old_tol_eq inp grid init heq).2.1]
      simp [init]
  · rw [search_old_tol_corners]
    rfl
  · show classify (search inp) = 0 ↔ _
    rw [classify_eq_zero_iff, search_converged_iff_corner]
    simp [corners, tol_at, outer_iter, inner_iter]
  · refine ⟨A_of_lt inp 1 (by decide), ?_, sigma_A_of_lt 1 (by decide), sigma_A_at_top⟩
    rw [A_at_top]
    ring

end MertonKMV
